import Mathlib

/-!
Verification of the `data-store` library (src/index.js, the modern `Store`
class): a JSON-document key-value store with dotted-path operations,
lazy loading with defaults merging, and debounced persistence.

The JavaScript code is shallowly embedded: JS values become the `JSValue`
inductive, the in-place mutations of the source become pure state-passing
functions, and the store instance together with its backing file, debounce
timer and write log becomes the `Sys` record.  Machine-level JS quirks that
the source relies on (loose `== null`, truthiness, `&&` short-circuit
returning the falsy operand, `JSON.stringify` dropping `undefined`) are
modelled explicitly.
-/

namespace DataStore

/-- JavaScript/JSON runtime values as manipulated by the store.  Numbers are
modelled as integers (the store never does arithmetic on values), objects as
insertion-ordered association lists, matching JS string-keyed property
order. -/
inductive JSValue where
  | undef
  | null
  | bool (b : Bool)
  | num (n : Int)
  | str (s : String)
  | arr (elems : List JSValue)
  | obj (fields : List (String × JSValue))
  deriving Repr

namespace JSValue

/-- JS truthiness: `undefined`, `null`, `false`, `0` and `""` are falsy;
every object and array is truthy. -/
def truthy : JSValue → Bool
  | undef => false
  | null => false
  | bool b => b
  | num n => n != 0
  | str s => s != ""
  | arr _ => true
  | obj _ => true

/-- JS loose equality against null (`x == null`): true exactly for
`undefined` and `null`. -/
def looseNull : JSValue → Bool
  | undef => true
  | null => true
  | _ => false

/-- `typeOf` from src/index.js (lines 503-512): classifies strings, arrays
and (non-null) objects; every other value yields no classification
(modelled as `none`; regexes do not occur in the store's data). -/
def typeOf : JSValue → Option String
  | str _ => some "string"
  | arr _ => some "array"
  | obj _ => some "object"
  | _ => none

/-- `isObject` from src/index.js (lines 469-471): `typeOf(val) === 'object'`,
i.e. a plain mapping; arrays and `null` are not objects. -/
def isObject (v : JSValue) : Bool := v.typeOf == some "object"

/-- Is this value a JS string? (`typeof key === 'string'`.) -/
def isString : JSValue → Bool
  | str _ => true
  | _ => false

end JSValue

open JSValue

mutual

/-- Structural (boolean) equality on `JSValue`, playing the role of JS
strict equality `===` for primitive values; the store's `unique` only ever
compares through `indexOf`, where `===` and structural equality coincide on
primitives. -/
def jsBeq : JSValue → JSValue → Bool
  | .undef, .undef => true
  | .null, .null => true
  | .bool a, .bool b => a == b
  | .num a, .num b => a == b
  | .str a, .str b => a == b
  | .arr a, .arr b => jsBeqList a b
  | .obj a, .obj b => jsBeqFields a b
  | _, _ => false

/-- Elementwise `jsBeq` on lists of values. -/
def jsBeqList : List JSValue → List JSValue → Bool
  | [], [] => true
  | a :: as, b :: bs => jsBeq a b && jsBeqList as bs
  | _, _ => false

/-- Elementwise `jsBeq` on field lists. -/
def jsBeqFields : List (String × JSValue) → List (String × JSValue) → Bool
  | [], [] => true
  | (k, v) :: as, (k', v') :: bs => k == k' && jsBeq v v' && jsBeqFields as bs
  | _, _ => false

end

instance : BEq JSValue := ⟨jsBeq⟩

mutual

theorem jsBeq_iff : ∀ (a b : JSValue), jsBeq a b = true ↔ a = b
  | .undef, b => by cases b <;> simp [jsBeq]
  | .null, b => by cases b <;> simp [jsBeq]
  | .bool x, b => by cases b <;> simp [jsBeq]
  | .num x, b => by cases b <;> simp [jsBeq]
  | .str x, b => by cases b <;> simp [jsBeq]
  | .arr xs, b => by
      cases b <;> simp [jsBeq]
      exact jsBeqList_iff xs _
  | .obj xs, b => by
      cases b <;> simp [jsBeq]
      exact jsBeqFields_iff xs _

theorem jsBeqList_iff : ∀ (a b : List JSValue), jsBeqList a b = true ↔ a = b
  | [], b => by cases b <;> simp [jsBeqList]
  | x :: xs, b => by
      cases b with
      | nil => simp [jsBeqList]
      | cons y ys =>
          simp only [jsBeqList, Bool.and_eq_true, jsBeq_iff x y, jsBeqList_iff xs ys,
            List.cons.injEq]

theorem jsBeqFields_iff : ∀ (a b : List (String × JSValue)), jsBeqFields a b = true ↔ a = b
  | [], b => by cases b <;> simp [jsBeqFields]
  | (k, v) :: xs, b => by
      cases b with
      | nil => simp [jsBeqFields]
      | cons y ys =>
          obtain ⟨k', v'⟩ := y
          simp only [jsBeqFields, Bool.and_eq_true, jsBeq_iff v v', jsBeqFields_iff xs ys,
            List.cons.injEq, Prod.mk.injEq, beq_iff_eq, and_assoc]

end

instance : DecidableEq JSValue := fun a b => decidable_of_iff _ (jsBeq_iff a b)

/-- First-match lookup in an object's field list (JS property read). -/
def lookupField : List (String × JSValue) → String → Option JSValue
  | [], _ => none
  | (k', v') :: rest, k => if k' = k then some v' else lookupField rest k

/-- JS property assignment on a field list: overwrite the existing entry in
place (keeping its position) or append a new one, matching JS property
insertion order. -/
def setField : List (String × JSValue) → String → JSValue → List (String × JSValue)
  | [], k, v => [(k, v)]
  | (k', v') :: rest, k, v =>
      if k' = k then (k, v) :: rest else (k', v') :: setField rest k v

/-- JS `delete obj[k]` on a field list: remove the entry named `k`. -/
def delField : List (String × JSValue) → String → List (String × JSValue)
  | [], _ => []
  | (k', v') :: rest, k =>
      if k' = k then rest else (k', v') :: delField rest k

/-- JS member read `base[k]` for a string subscript `k`.  Objects look up a
field; arrays expose canonical decimal indices and `length`; strings expose
indices (single-character strings) and `length`; every other base yields
`undefined`.  (`null`/`undefined` bases would throw in JS; every call site
in the source guards with truthiness first.) -/
def jsGetProp : JSValue → String → JSValue
  | .obj fs, k => (lookupField fs k).getD .undef
  | .arr es, k =>
      if k = "length" then .num es.length
      else
        match k.toNat? with
        | some n => if toString n = k then (es.get? n).getD .undef else .undef
        | none => .undef
  | .str s, k =>
      if k = "length" then .num s.length
      else
        match k.toNat? with
        | some n =>
            if toString n = k then
              match s.data.get? n with
              | some c => .str (String.mk [c])
              | none => .undef
            else .undef
        | none => .undef
  | _, _ => (.undef)

/-- JS member write `base[k] = v`.  Objects update/append a field; arrays
replace an in-range canonical index.  Writes to other bases (which strict
mode would reject, and which no code path of the store reaches: the root is
always an object and intermediate path nodes are coerced to objects) leave
the value unchanged. -/
def jsAssign : JSValue → String → JSValue → JSValue
  | .obj fs, k, v => .obj (setField fs k v)
  | .arr es, k, v =>
      (match k.toNat? with
       | some n => if toString n = k ∧ n < es.length then .arr (es.set n v) else .arr es
       | none => .arr es)
  | base, _, _ => base

/-- JS `base.hasOwnProperty(k)`.  Objects own their fields; arrays own
in-range canonical indices and `length`; strings likewise; primitives own
nothing. -/
def jsHasOwnProperty : JSValue → String → Bool
  | .obj fs, k => (lookupField fs k).isSome
  | .arr es, k =>
      if k = "length" then true
      else
        match k.toNat? with
        | some n => toString n = k ∧ n < es.length
        | none => false
  | .str s, k =>
      if k = "length" then true
      else
        match k.toNat? with
        | some n => toString n = k ∧ n < s.length
        | none => false
  | _, _ => false

/-- One step of `Object.assign(target, source)`: copy each own enumerable
property of `source` onto `target` in order.  Object fields, array elements
(under their index keys) and string characters are enumerable; other
sources contribute nothing. -/
def jsObjectAssign (target source : JSValue) : JSValue :=
  match source with
  | .obj fs => fs.foldl (fun t p => jsAssign t p.1 p.2) target
  | .arr es => (es.enum).foldl (fun t p => jsAssign t (toString p.1) p.2) target
  | .str s => (s.data.enum).foldl (fun t p => jsAssign t (toString p.1) (.str (String.mk [p.2]))) target
  | _ => target

/-- Single character-level pass computing `split` from src/index.js
(lines 473-481), i.e. `str.split('.')` followed by the merge loop that
glues a backslash-ending segment onto the next segment with a literal dot.
At character level this is: a `.` ends the current segment unless the
previous character is a backslash, in which case the dot replaces that
backslash inside the segment; a segment left with a trailing backslash at
the end of the string likewise turns it into a trailing dot (the JS merge
with `splice`'s empty result coerced to `""`).  `acc` holds the current
segment's characters in reverse. -/
def splitAux : List Char → List Char → List String
  | [], acc =>
      match acc with
      | '\\' :: accRest => [String.mk (accRest.reverse ++ ['.'])]
      | _ => [String.mk acc.reverse]
  | '.' :: rest, acc =>
      match acc with
      | '\\' :: accRest => splitAux rest ('.' :: accRest)
      | _ => String.mk acc.reverse :: splitAux rest []
  | c :: rest, acc => splitAux rest (c :: acc)

/-- `split` from src/index.js (lines 473-481): split a dotted key on `.`,
honoring backslash-escaped dots. -/
def split (s : String) : List String :=
  splitAux s.data []

/-- JS `segs.join('.')`. -/
def joinDots : List String → String
  | [] => ""
  | [s] => s
  | s :: rest => String.mk (s.data ++ '.' :: (joinDots rest).data)

/-- The reduce of `get` (src/index.js line 432):
`segs.reduce((acc, k) => acc && acc[k], data)`.  JS `&&` returns the falsy
accumulator itself, so a falsy intermediate value is propagated unchanged
to the final result. -/
def walk (segs : List String) (data : JSValue) : JSValue :=
  segs.foldl (fun acc k => if acc.truthy then jsGetProp acc k else acc) data

/-- `get` from src/index.js (lines 430-434): if the literal key is a direct
property with a value that is not loosely null, return it (fast path);
otherwise decompose the dotted path and walk it. -/
def getFn (data : JSValue) (prop : String) : JSValue :=
  if (jsGetProp data prop).looseNull then walk (split prop) data
  else jsGetProp data prop

/-- The reduce of `set` (src/index.js lines 436-442) over already-split
segments: intermediate segments are `acc[k] || {}` and are replaced by a
fresh mapping when not a plain object; the final segment is assigned the
value as-is.  The in-place mutation of the source is rendered as a rebuild
along the path. -/
def setSegs : JSValue → List String → JSValue → JSValue
  | data, [], _ => data
  | data, [k], v => jsAssign data k v
  | data, k :: k' :: rest, v =>
      let cur := jsGetProp data k
      let value0 := if cur.truthy then cur else .obj []
      let value := if value0.isObject then value0 else .obj []
      jsAssign data k (setSegs value (k' :: rest) v)

/-- `set` from src/index.js (lines 436-442). -/
def setFn (data : JSValue) (prop : String) (v : JSValue) : JSValue :=
  setSegs data (split prop) v

/-- JS `delete v[k]`, used by `del` only under an `isObject` guard, so only
object bases are affected. -/
def objDeleteKey (v : JSValue) (k : String) : JSValue :=
  match v with
  | .obj fs => .obj (delField fs k)
  | v' => v'

/-- Rebuild of an in-place mutation performed through the walk of `get`:
apply `f` at the value the reduce of `get` resolves to.  Falsy intermediate
values stop the walk (the result is then not an object, and the source
mutates nothing); mutation reached through a primitive base likewise
changes nothing, which `jsAssign` reflects. -/
def walkUpdate : List String → JSValue → (JSValue → JSValue) → JSValue
  | [], data, f => f data
  | k :: rest, data, f =>
      if data.truthy then jsAssign data k (walkUpdate rest (jsGetProp data k) f)
      else data

/-- Rebuild of an in-place mutation of the value returned by
`get(data, prop)`: the fast path mutates the literal property's value, the
walk path mutates along the decomposed path. -/
def updateAtGet (data : JSValue) (prop : String) (f : JSValue → JSValue) : JSValue :=
  if (jsGetProp data prop).looseNull then walkUpdate (split prop) data f
  else jsAssign data prop (f (jsGetProp data prop))

/-- `del` from src/index.js (lines 444-457): returns whether something was
deleted together with the updated document.  An empty key deletes nothing;
a literal own property is deleted directly; otherwise the parent of the
last segment is resolved with `get` on the re-joined prefix and the last
segment is deleted from it when it is an object owning that segment. -/
def delFn (data : JSValue) (prop : String) : Bool × JSValue :=
  if prop = "" then (false, data)
  else if jsHasOwnProperty data prop then (true, objDeleteKey data prop)
  else
    let segs := split prop
    let last := (segs.getLast?).getD ""
    let start := segs.dropLast
    if start.isEmpty then
      if data.isObject ∧ jsHasOwnProperty data last then (true, objDeleteKey data last)
      else (false, data)
    else
      let joined := joinDots start
      let val := getFn data joined
      if val.isObject ∧ jsHasOwnProperty val last then
        (true, updateAtGet data joined (fun v => objDeleteKey v last))
      else (false, data)

/-- `hasOwn` from src/index.js (lines 459-467). -/
def hasOwnFn (data : JSValue) (prop : String) : Bool :=
  if prop = "" then false
  else if jsHasOwnProperty data prop then true
  else if ¬ prop.data.contains '.' then false
  else
    let segs := split prop
    let last := (segs.getLast?).getD ""
    let start := segs.dropLast
    let val := if start.isEmpty then data else getFn data (joinDots start)
    val.isObject && jsHasOwnProperty val last

/-- `Store.has` body (src/index.js line 147):
`typeof get(this.data, key) !== 'undefined'`, at the document level. -/
def hasFn (data : JSValue) (prop : String) : Bool :=
  getFn data prop != (JSValue.undef)

/-- `flatten` from src/index.js (line 7): `[].concat.apply([], args)` —
array arguments are spliced in (one level), everything else is kept as a
single element. -/
def flattenOnce (args : List JSValue) : List JSValue :=
  args.foldr (fun v acc => match v with
    | .arr es => es ++ acc
    | v' => v' :: acc) []

/-- `unique` from src/index.js (line 8):
`arr.filter((v, i) => arr.indexOf(v) === i)` — keep an element exactly when
its index is the first index at which it occurs.  `indexOf` compares with
`===`, which agrees with structural equality on the primitive values the
store deduplicates. -/
def uniqueFn (l : List JSValue) : List JSValue :=
  ((l.enum).filter (fun p => l.indexOf p.2 = p.1)).map Prod.snd

mutual

/-- The value a field's content contributes under `JSON.stringify`:
`undefined` entries of objects are dropped, `undefined` array elements
become `null`, recursively.  `stringifyDoc` is the document that the
serialized JSON text denotes. -/
def stringifyDoc : JSValue → JSValue
  | .obj fs => .obj (stringifyFields fs)
  | .arr es => .arr (stringifyElems es)
  | v => v

/-- Object fields under `JSON.stringify`: `undefined`-valued entries are
omitted. -/
def stringifyFields : List (String × JSValue) → List (String × JSValue)
  | [] => []
  | (k, v) :: rest =>
      match v with
      | .undef => stringifyFields rest
      | v' => (k, stringifyDoc v') :: stringifyFields rest

/-- Array elements under `JSON.stringify`: `undefined` becomes `null`. -/
def stringifyElems : List JSValue → List JSValue
  | [] => []
  | v :: rest =>
      (match v with
       | .undef => .null
       | v' => stringifyDoc v') :: stringifyElems rest

end

/-!
## The store instance

`Sys` is the state of one `Store` instance together with the pieces of the
environment the claims are about: the backing file, the event-loop timers
and a log of the physical writes.  Timers are cooperative: a `setTimeout`
callback becomes an explicit `fire…` transition that the event loop may
take once the deadline has passed.
-/

/-- State of a `Store` instance plus its environment.

* `debounce`, `defaults` — constructor configuration (src/index.js lines
  36-41; `debounce` defaults to 5, `defaults` to `{}`).
* `dataCache` — `this._data` (`none` before first materialization).
* `saved` — `this.saved`, set by `writeFile`.
* `time` — current event-loop time (for timer deadlines).
* `savePendingAt` — `this.save.debounce`: the deadline of the pending
  debounced write, `none` when no write is pending.
* `unlinkActive` — `this.unlink.clear`: whether an unlink retry poll is
  scheduled.
* `disk` — the backing file (`none` = absent, mirroring `ENOENT`).
* `writes` — log of documents physically written, in order. -/
structure Sys where
  debounce : Nat := 5
  defaults : JSValue := .obj []
  dataCache : Option JSValue := none
  saved : Bool := false
  time : Nat := 0
  savePendingAt : Option Nat := none
  unlinkActive : Bool := false
  disk : Option JSValue := none
  writes : List JSValue := []
  deriving Repr, DecidableEq

/-- Advance the event-loop clock (used to timestamp calls and firings). -/
def atTime (t : Nat) (s : Sys) : Sys := { s with time := t }

/-- `Store.load` as it acts in a healthy environment (the full
present/absent/corrupt/permission policy is `loadFn` below): parse the
backing file into `this._data`, or make `this._data` an empty mapping when
the file is absent (src/index.js lines 345-358). -/
def loadSys (s : Sys) : JSValue × Sys :=
  match s.disk with
  | some doc => (doc, { s with dataCache := some doc })
  | none => (JSValue.obj [], { s with dataCache := some (JSValue.obj []) })

/-- The `data` getter (src/index.js lines 377-383):
`this._data = this._data || this.load()`, then — until the first physical
write has marked the store `saved` — replace the cache with
`Object.assign({}, this.defaults, this._data)`. -/
def dataGet (s : Sys) : JSValue × Sys :=
  let (d, s1) :=
    match s.dataCache with
    | some d => if d.truthy then (d, s) else loadSys s
    | none => loadSys s
  let s2 := { s1 with dataCache := some d }
  if s2.saved then (d, s2)
  else
    let m := jsObjectAssign (jsObjectAssign (JSValue.obj []) s2.defaults) d
    (m, { s2 with dataCache := some m })

/-- `Store.writeFile` (src/index.js lines 313-321): clear the pending
timer, mark the store saved, then serialize `this.data` (read through the
getter, after `saved` is already set) and write it to the backing file. -/
def writeFileSys (s : Sys) : Sys :=
  let s1 := { s with savePendingAt := none, saved := true }
  let (d, s2) := dataGet s1
  let doc := stringifyDoc d
  { s2 with disk := some doc, writes := s2.writes ++ [doc] }

/-- `Store.save` (src/index.js lines 265-269): with debounce disabled,
write immediately; with a write already pending, do nothing (the existing
timer is kept — first-call-wins coalescing); otherwise schedule a write at
`now + debounce`. -/
def saveSys (s : Sys) : Sys :=
  if s.debounce = 0 then writeFileSys s
  else if s.savePendingAt.isSome then s
  else { s with savePendingAt := some (s.time + s.debounce) }

/-- The event loop firing the debounced write scheduled by `save`: a no-op
before the deadline or when nothing is pending. -/
def fireSave (s : Sys) (t : Nat) : Sys :=
  match s.savePendingAt with
  | some d => if d ≤ t then writeFileSys (atTime t s) else atTime t s
  | none => atTime t s

/-- `fs.unlinkSync` on the modelled backing file: removing an absent file
reports `ENOENT`. -/
inductive FsErr where
  | enoent
  deriving Repr, DecidableEq

/-- `fs.unlinkSync(filepath)` (the call inside `tryUnlink`). -/
def fsUnlinkSync : Option JSValue → Except FsErr (Option JSValue)
  | none => .error .enoent
  | some _ => .ok none

/-- `tryUnlink` from src/index.js (lines 420-428): delete the file,
swallowing `ENOENT`. -/
def tryUnlink (disk : Option JSValue) : Except FsErr (Option JSValue) :=
  match fsUnlinkSync disk with
  | .error .enoent => .ok disk
  | .ok d => .ok d

/-- `Store.deleteFile` (src/index.js lines 335-338): cancel the unlink
poll chain and remove the backing file, tolerating its absence. -/
def deleteFileSys (s : Sys) : Sys :=
  match tryUnlink s.disk with
  | .ok d => { s with unlinkActive := false, disk := d }
  | .error _ => { s with unlinkActive := false }

/-- `Store.unlink` (src/index.js lines 282-299): cancel any previously
scheduled unlink poll and schedule a new poll chain.  The pending *save*
timer is not touched. -/
def unlinkSys (s : Sys) : Sys :=
  { s with unlinkActive := true }

/-- The event loop firing one step of the unlink poll chain (the
`setTimeout` body inside `Store.unlink`): while a save is still pending the
poll reschedules itself; once no save is pending it deletes the file. -/
def fireUnlinkPoll (s : Sys) (t : Nat) : Sys :=
  if s.unlinkActive then
    if s.savePendingAt.isSome then atTime t s
    else deleteFileSys (atTime t s)
  else atTime t s

/-!
## The public API

Key arguments are JS values; each operation raises `invalidKey` exactly
where the source's `assert.equal(typeof key, 'string', …)` throws.
-/

/-- The invalid-argument error of the `assert.equal(typeof key, 'string')`
guards. -/
inductive StoreErr where
  | invalidKey
  deriving Repr, DecidableEq

/-- `Store.get` for a string key (the body after the assert):
`get(this.data, key)` (src/index.js lines 123-126). -/
def storeGet (s : Sys) (key : String) : JSValue × Sys :=
  let (d, s1) := dataGet s
  (getFn d key, s1)

/-- `Store.set` for a string key (the body after the assert):
`set(this.data, key, val); this.save()` (src/index.js lines 67-76). -/
def storeSet (s : Sys) (key : String) (v : JSValue) : Sys :=
  let (d, s1) := dataGet s
  saveSys { s1 with dataCache := some (setFn d key v) }

/-- `Store.set` for an object key: `Object.assign(this.data, key)` then
save. -/
def storeSetObj (s : Sys) (key : JSValue) : Sys :=
  let (d, s1) := dataGet s
  saveSys { s1 with dataCache := some (jsObjectAssign d key) }

/-- `Store.has` for a string key (src/index.js lines 145-148). -/
def storeHas (s : Sys) (key : String) : Bool × Sys :=
  let (d, s1) := dataGet s
  (hasFn d key, s1)

/-- `Store.hasOwn` for a string key (src/index.js lines 173-176). -/
def storeHasOwn (s : Sys) (key : String) : Bool × Sys :=
  let (d, s1) := dataGet s
  (hasOwnFn d key, s1)

/-- `Store.del` for a string key (src/index.js lines 194-204): delete via
`del(this.data, key)` and save only when something was deleted. -/
def storeDelStr (s : Sys) (key : String) : Sys :=
  let (d, s1) := dataGet s
  let (deleted, d') := delFn d key
  let s2 := { s1 with dataCache := some d' }
  if deleted then saveSys s2 else s2

/-- `Store.union` (src/index.js lines 97-104): read the current value,
normalize `null`/`undefined` to `[]` and any other non-array to a
one-element array, then set the deduplicated one-level flattening of the
existing elements and the new values. -/
def storeUnion (s : Sys) (key : String) (rest : List JSValue) : Sys :=
  let (v, s1) := storeGet s key
  let arr0 := if v.looseNull then JSValue.arr [] else v
  let elems := match arr0 with
    | .arr es => es
    | v' => [v']
  storeSet s1 key (.arr (uniqueFn (flattenOnce (elems ++ rest))))

/-- `Store.get` on an arbitrary key argument: non-strings hit the assert. -/
def storeGetE (s : Sys) (key : JSValue) : Except StoreErr (JSValue × Sys) :=
  match key with
  | .str k => .ok (storeGet s k)
  | _ => .error .invalidKey

/-- `Store.has` on an arbitrary key argument. -/
def storeHasE (s : Sys) (key : JSValue) : Except StoreErr (Bool × Sys) :=
  match key with
  | .str k => .ok (storeHas s k)
  | _ => .error .invalidKey

/-- `Store.hasOwn` on an arbitrary key argument. -/
def storeHasOwnE (s : Sys) (key : JSValue) : Except StoreErr (Bool × Sys) :=
  match key with
  | .str k => .ok (storeHasOwn s k)
  | _ => .error .invalidKey

/-- `Store.set` on an arbitrary key argument: a plain object key is merged
with `Object.assign`, a string key is a path set, anything else hits the
assert (src/index.js lines 67-76). -/
def storeSetE (s : Sys) (key : JSValue) (v : JSValue) : Except StoreErr Sys :=
  if key.isObject then .ok (storeSetObj s key)
  else
    match key with
    | .str k => .ok (storeSet s k v)
    | _ => .error .invalidKey

mutual

/-- `Store.del` on an arbitrary key argument (src/index.js lines 194-204):
an array of keys is deleted elementwise, a string key deletes a path,
anything else hits the assert. -/
def storeDelE : Sys → JSValue → Except StoreErr Sys
  | s, .arr ks => storeDelList s ks
  | s, .str k => .ok (storeDelStr s k)
  | _, _ => .error .invalidKey

/-- Sequential deletion of a list of key arguments (the
`for (const k of key) this.del(k)` loop). -/
def storeDelList : Sys → List JSValue → Except StoreErr Sys
  | s, [] => .ok s
  | s, k :: ks => do
      let s' ← storeDelE s k
      storeDelList s' ks

end

mutual

/-- A key argument on which `Store.del` runs without hitting the assert:
a string, or (recursively) an array of such arguments. -/
def delKeyOk : JSValue → Bool
  | .str _ => true
  | .arr ks => delKeysOk ks
  | _ => false

/-- All elements acceptable to `Store.del`. -/
def delKeysOk : List JSValue → Bool
  | [] => true
  | k :: ks => delKeyOk k && delKeysOk ks

end

/-- Whether an `Except`-returning operation succeeded. -/
def exOk {ε α : Type _} : Except ε α → Bool
  | .ok _ => true
  | .error _ => false

/-!
## `Store.load` against the full filesystem policy

`Sys.disk` only models the healthy environment; `loadFn` is `Store.load`
(src/index.js lines 345-358) over the full read outcome, including
permission failures and corrupt content.
-/

/-- Outcome of `JSON.parse(fs.readFileSync(path))`: the file is readable
and parses (`ok (ok doc)`), readable but corrupt (`ok (error ())`, the
`SyntaxError`), absent (`enoent`), or unreadable (`eacces`). -/
inductive FsRead where
  | ok (parsed : Except Unit JSValue)
  | enoent
  | eacces
  deriving Repr

/-- Errors `Store.load` lets escape. -/
inductive LoadErr where
  | eacces
  deriving Repr, DecidableEq

/-- `Store.load` (src/index.js lines 345-358): return the parsed document;
re-raise `EACCES`; swallow `ENOENT` and `SyntaxError` into an empty
mapping.  (The JS function would fall off the end — returning `undefined` —
for any other error; no other error kind is modelled.) -/
def loadFn : FsRead → Except LoadErr JSValue
  | .ok (.ok doc) => .ok doc
  | .ok (.error _) => .ok (.obj [])
  | .enoent => .ok (.obj [])
  | .eacces => .error .eacces

/-- Is this value a JS array? (`Array.isArray`.) -/
def JSValue.isArray : JSValue → Bool
  | .arr _ => true
  | _ => false

/-- A store as the default constructor produces it over a nonexistent file:
debounce 5 ms, no defaults, nothing loaded or written yet. -/
def freshSys : Sys := {}

/-- A fresh store constructed with defaults `{foo: "bar"}`. -/
def seedSys : Sys := { defaults := .obj [("foo", .str "bar")] }

/-- Run a burst of mutations: each entry `(t, k, v)` performs
`store.set(k, v)` at event-loop time `t`. -/
def runMuts (s : Sys) : List (Nat × String × JSValue) → Sys
  | [] => s
  | (t, k, v) :: rest => runMuts (storeSet (atTime t s) k v) rest

/-- States whose materialized document is a plain object: either the store
has not been written yet (the getter then merges into a fresh object), or
the cache already holds an object.  Every store reachable through the
public API satisfies this. -/
def goodData (s : Sys) : Prop :=
  s.saved = false ∨ ∃ fs, s.dataCache = some (JSValue.obj fs)

/-!
## Helper lemmas
-/

theorem obj_truthy (fs : List (String × JSValue)) : (JSValue.obj fs).truthy = true := rfl

theorem lookup_setField_self (fs : List (String × JSValue)) (k : String) (v : JSValue) :
    lookupField (setField fs k v) k = some v := by
  induction fs with
  | nil => simp [setField, lookupField]
  | cons p rest ih =>
      obtain ⟨k', v'⟩ := p
      by_cases h : k' = k
      · subst h
        simp [setField, lookupField]
      · simp [setField, lookupField, h, ih]

theorem lookup_setField_other (fs : List (String × JSValue)) (k k' : String) (v : JSValue)
    (h : k' ≠ k) : lookupField (setField fs k' v) k = lookupField fs k := by
  induction fs with
  | nil => simp [setField, lookupField, h]
  | cons p rest ih =>
      obtain ⟨k₀, v₀⟩ := p
      by_cases h0 : k₀ = k'
      · subst h0
        simp [setField, lookupField, h]
      · simp [setField, lookupField, h0, ih]

theorem jsGetProp_assign_self (fs : List (String × JSValue)) (k : String) (v : JSValue) :
    jsGetProp (jsAssign (.obj fs) k v) k = v := by
  simp [jsAssign, jsGetProp, lookup_setField_self]

theorem jsGetProp_assign_other (fs : List (String × JSValue)) (k k' : String) (v : JSValue)
    (h : k' ≠ k) : jsGetProp (jsAssign (.obj fs) k' v) k = jsGetProp (.obj fs) k := by
  simp [jsAssign, jsGetProp, lookup_setField_other fs k k' v h]

theorem keys_setField (fs : List (String × JSValue)) (k : String) (v : JSValue) :
    (setField fs k v).map Prod.fst = fs.map Prod.fst ∨
    (setField fs k v).map Prod.fst = fs.map Prod.fst ++ [k] := by
  induction fs with
  | nil => right; simp [setField]
  | cons p rest ih =>
      obtain ⟨k₀, v₀⟩ := p
      by_cases h0 : k₀ = k
      · left; subst h0; simp [setField]
      · rcases ih with h | h
        · left; simp [setField, h0, h]
        · right; simp [setField, h0, h]

theorem lookup_not_mem (fs : List (String × JSValue)) (k : String)
    (h : k ∉ fs.map Prod.fst) : lookupField fs k = none := by
  induction fs with
  | nil => simp [lookupField]
  | cons p rest ih =>
      obtain ⟨k₀, v₀⟩ := p
      simp only [List.map_cons, List.mem_cons, not_or] at h
      have hne : k₀ ≠ k := fun e => h.1 e.symm
      simp [lookupField, hne, ih h.2]

theorem nodup_setField (fs : List (String × JSValue)) (k : String) (v : JSValue)
    (h : (fs.map Prod.fst).Nodup) : ((setField fs k v).map Prod.fst).Nodup := by
  induction fs with
  | nil => simp [setField]
  | cons p rest ih =>
      obtain ⟨k₀, v₀⟩ := p
      simp only [List.map_cons, List.nodup_cons] at h
      by_cases h0 : k₀ = k
      · subst h0
        simp [setField, List.nodup_cons, h.1, h.2]
      · simp only [setField, if_neg h0, List.map_cons, List.nodup_cons]
        refine ⟨?_, ih h.2⟩
        intro hmem
        rcases keys_setField rest k v with hk | hk
        · rw [hk] at hmem
          exact h.1 hmem
        · rw [hk] at hmem
          rcases List.mem_append.mp hmem with hm | hm
          · exact h.1 hm
          · simp at hm
            exact h0 hm

theorem lookup_delField_self (fs : List (String × JSValue)) (k : String)
    (h : (fs.map Prod.fst).Nodup) : lookupField (delField fs k) k = none := by
  induction fs with
  | nil => simp [delField, lookupField]
  | cons p rest ih =>
      obtain ⟨k₀, v₀⟩ := p
      simp only [List.map_cons, List.nodup_cons] at h
      by_cases h0 : k₀ = k
      · subst h0
        simp only [delField, if_pos rfl]
        exact lookup_not_mem rest k₀ h.1
      · simp [delField, h0, lookupField, ih h.2]

theorem foldl_assign_obj {α : Type} (key : α → String) (val : α → JSValue) :
    ∀ (l : List α) (fs : List (String × JSValue)),
      ∃ fs', l.foldl (fun t p => jsAssign t (key p) (val p)) (.obj fs) = .obj fs'
  | [], fs => ⟨fs, rfl⟩
  | p :: rest, fs => by
      simpa [jsAssign] using foldl_assign_obj key val rest (setField fs (key p) (val p))

theorem jsObjectAssign_obj (fs : List (String × JSValue)) (src : JSValue) :
    ∃ fs', jsObjectAssign (.obj fs) src = .obj fs' := by
  cases src with
  | obj l => exact foldl_assign_obj Prod.fst Prod.snd l fs
  | arr es =>
      exact foldl_assign_obj (fun (p : Nat × JSValue) => toString p.1) Prod.snd es.enum fs
  | str t =>
      exact foldl_assign_obj (fun (p : Nat × Char) => toString p.1)
        (fun p => .str (String.mk [p.2])) t.data.enum fs
  | undef => exact ⟨fs, rfl⟩
  | null => exact ⟨fs, rfl⟩
  | bool b => exact ⟨fs, rfl⟩
  | num n => exact ⟨fs, rfl⟩

theorem foldl_assign_get_not_mem (l : List (String × JSValue)) :
    ∀ (fs : List (String × JSValue)) (k : String), k ∉ l.map Prod.fst →
      jsGetProp (l.foldl (fun t p => jsAssign t p.1 p.2) (.obj fs)) k =
        jsGetProp (.obj fs) k := by
  induction l with
  | nil => intro fs k _; rfl
  | cons p rest ih =>
      intro fs k h
      obtain ⟨k₀, v₀⟩ := p
      simp only [List.map_cons, List.mem_cons, not_or] at h
      have hne : k₀ ≠ k := fun e => h.1 e.symm
      simp only [List.foldl_cons]
      rw [show jsAssign (JSValue.obj fs) k₀ v₀ = .obj (setField fs k₀ v₀) from rfl,
        ih (setField fs k₀ v₀) k h.2]
      exact jsGetProp_assign_other fs k k₀ v₀ hne

theorem foldl_assign_get_lookup (l : List (String × JSValue)) :
    ∀ (fs : List (String × JSValue)) (k : String) (v : JSValue),
      lookupField l k = some v → (l.map Prod.fst).Nodup →
      jsGetProp (l.foldl (fun t p => jsAssign t p.1 p.2) (.obj fs)) k = v := by
  induction l with
  | nil => intro fs k v h _; simp [lookupField] at h
  | cons p rest ih =>
      intro fs k v h hnd
      obtain ⟨k₀, v₀⟩ := p
      simp only [List.map_cons, List.nodup_cons] at hnd
      by_cases h0 : k₀ = k
      · subst h0
        simp only [lookupField] at h
        simp only [if_true] at h
        cases h
        simp only [List.foldl_cons]
        rw [show jsAssign (JSValue.obj fs) k₀ v = .obj (setField fs k₀ v) from rfl,
          foldl_assign_get_not_mem rest (setField fs k₀ v) k₀ hnd.1]
        exact jsGetProp_assign_self fs k₀ v
      · simp only [lookupField, if_neg h0] at h
        simp only [List.foldl_cons]
        rw [show jsAssign (JSValue.obj fs) k₀ v₀ = .obj (setField fs k₀ v₀) from rfl]
        exact ih (setField fs k₀ v₀) k v h hnd.2

theorem keys_stringifyFields_sublist (fs : List (String × JSValue)) :
    ((stringifyFields fs).map Prod.fst).Sublist (fs.map Prod.fst) := by
  induction fs with
  | nil => simp [stringifyFields]
  | cons p rest ih =>
      obtain ⟨k₀, v₀⟩ := p
      cases v₀
      case undef =>
        simp only [stringifyFields, List.map_cons]
        exact ih.trans (List.sublist_cons_self k₀ _)
      all_goals
        simp only [stringifyFields, List.map_cons]
        exact List.Sublist.cons₂ k₀ ih

theorem lookup_stringifyFields_undef (fs : List (String × JSValue)) (k : String)
    (hnd : (fs.map Prod.fst).Nodup) (h : lookupField fs k = some .undef) :
    lookupField (stringifyFields fs) k = none := by
  induction fs with
  | nil => simp [lookupField] at h
  | cons p rest ih =>
      obtain ⟨k₀, v₀⟩ := p
      simp only [List.map_cons, List.nodup_cons] at hnd
      by_cases h0 : k₀ = k
      · subst h0
        simp only [lookupField] at h
        simp only [if_true] at h
        cases h
        simp only [stringifyFields]
        apply lookup_not_mem
        intro hmem
        exact hnd.1 ((keys_stringifyFields_sublist rest).subset hmem)
      · simp only [lookupField, if_neg h0] at h
        cases v₀ with
        | undef => exact ih hnd.2 h
        | null => simp [stringifyFields, lookupField, h0, ih hnd.2 h]
        | bool b => simp [stringifyFields, lookupField, h0, ih hnd.2 h]
        | num n => simp [stringifyFields, lookupField, h0, ih hnd.2 h]
        | str t => simp [stringifyFields, lookupField, h0, ih hnd.2 h]
        | arr es => simp [stringifyFields, lookupField, h0, ih hnd.2 h]
        | obj l => simp [stringifyFields, lookupField, h0, ih hnd.2 h]

theorem setFn_obj (fs : List (String × JSValue)) (p : String) (v : JSValue) :
    ∃ fs', setFn (.obj fs) p v = .obj fs' := by
  unfold setFn
  cases h : split p with
  | nil => exact ⟨fs, rfl⟩
  | cons a rest =>
      cases rest with
      | nil => exact ⟨setField fs a v, rfl⟩
      | cons b rest2 => exact ⟨_, rfl⟩

theorem dataGet_saved (s : Sys) (d : JSValue) (hs : s.saved = true)
    (hc : s.dataCache = some d) (ht : d.truthy = true) :
    dataGet s = (d, { s with dataCache := some d }) := by
  simp [dataGet, hc, ht, hs]

theorem dataGet_unsaved_cache (s : Sys) (d : JSValue) (hs : s.saved = false)
    (hc : s.dataCache = some d) (ht : d.truthy = true) :
    dataGet s = (jsObjectAssign (jsObjectAssign (.obj []) s.defaults) d,
      { s with dataCache := some (jsObjectAssign (jsObjectAssign (.obj []) s.defaults) d) }) := by
  simp [dataGet, hc, ht, hs]

theorem dataGet_fields (s : Sys) :
    (dataGet s).2.saved = s.saved ∧ (dataGet s).2.savePendingAt = s.savePendingAt ∧
    (dataGet s).2.writes = s.writes ∧ (dataGet s).2.time = s.time ∧
    (dataGet s).2.debounce = s.debounce ∧ (dataGet s).2.disk = s.disk ∧
    (dataGet s).2.defaults = s.defaults ∧ (dataGet s).2.dataCache = some (dataGet s).1 := by
  unfold dataGet loadSys
  cases hc : s.dataCache with
  | none => cases hd : s.disk <;> simp [hc, hd] <;> split <;> simp
  | some d =>
      cases hd : s.disk <;> by_cases ht : d.truthy <;>
        simp [hc, hd, ht] <;> split <;> simp

theorem dataGet_obj (s : Sys) (h : goodData s) : ∃ fs, (dataGet s).1 = .obj fs := by
  by_cases hs : s.saved = true
  · rcases h with h | ⟨fs, hc⟩
    · rw [hs] at h; cases h
    · exact ⟨fs, by rw [dataGet_saved s (.obj fs) hs hc (obj_truthy fs)]⟩
  · have hs' : s.saved = false := by
      cases h' : s.saved
      · rfl
      · exact absurd h' hs
    unfold dataGet loadSys
    cases hc : s.dataCache with
    | none =>
        cases hd : s.disk <;> simp [hc, hd, hs'] <;>
          [skip; skip] <;>
        · obtain ⟨fs1, e1⟩ := jsObjectAssign_obj ([]) s.defaults
          rw [e1]
          exact jsObjectAssign_obj fs1 _
    | some d =>
        cases hd : s.disk <;> by_cases ht : d.truthy <;> simp [hc, hd, ht, hs'] <;>
        · obtain ⟨fs1, e1⟩ := jsObjectAssign_obj ([]) s.defaults
          rw [e1]
          exact jsObjectAssign_obj fs1 _

theorem writeFile_cache (s : Sys) (d : JSValue) (hc : s.dataCache = some d)
    (ht : d.truthy = true) :
    writeFileSys s = { s with savePendingAt := none, saved := true,
                              dataCache := some d,
                              disk := some (stringifyDoc d),
                              writes := s.writes ++ [stringifyDoc d] } := by
  have h := dataGet_saved { s with savePendingAt := none, saved := true } d rfl hc ht
  simp only [writeFileSys, h]

theorem saveSys_preserve (s : Sys) (d : JSValue) (hs : s.saved = true)
    (hc : s.dataCache = some d) (ht : d.truthy = true) :
    (saveSys s).saved = true ∧ (saveSys s).dataCache = some d := by
  unfold saveSys
  by_cases h0 : s.debounce = 0
  · rw [if_pos h0, writeFile_cache s d hc ht]
    exact ⟨rfl, rfl⟩
  · rw [if_neg h0]
    by_cases hp : s.savePendingAt.isSome
    · rw [if_pos hp]; exact ⟨hs, hc⟩
    · rw [if_neg hp]; exact ⟨hs, hc⟩

theorem storeSet_eq (s : Sys) (k : String) (v : JSValue) :
    storeSet s k v =
      saveSys { (dataGet s).2 with dataCache := some (setFn (dataGet s).1 k v) } := by
  simp only [storeSet]

theorem storeSet_saved_cache (s : Sys) (fs : List (String × JSValue)) (k : String)
    (v : JSValue) (hs : s.saved = true) (hc : s.dataCache = some (.obj fs)) :
    (storeSet s k v).saved = true ∧
    (storeSet s k v).dataCache = some (setFn (.obj fs) k v) := by
  rw [storeSet_eq, dataGet_saved s (.obj fs) hs hc (obj_truthy fs)]
  obtain ⟨fs', he⟩ := setFn_obj fs k v
  exact saveSys_preserve _ _ hs rfl (by rw [he]; exact obj_truthy fs')

theorem storeSet_of_pending (s : Sys) (k : String) (v : JSValue) (dl : Nat)
    (hdb : s.debounce ≠ 0) (hp : s.savePendingAt = some dl) (hg : goodData s) :
    (storeSet s k v).savePendingAt = some dl ∧ (storeSet s k v).writes = s.writes ∧
    (storeSet s k v).debounce = s.debounce ∧ (storeSet s k v).saved = s.saved ∧
    (storeSet s k v).time = s.time ∧
    (∃ fs, (storeSet s k v).dataCache = some (.obj fs)) := by
  obtain ⟨fs0, hd⟩ := dataGet_obj s hg
  obtain ⟨hsv, hpp, hw, htm, hdbq, _, _, _⟩ := dataGet_fields s
  rw [storeSet_eq]
  obtain ⟨fs', he⟩ := setFn_obj fs0 k v
  rw [hd, he]
  unfold saveSys
  have hdb2 : s.debounce ≠ 0 := hdb
  rw [if_neg (show ¬ ({ (dataGet s).2 with dataCache := some (JSValue.obj fs') } : Sys).debounce = 0 by
        simpa [hdbq] using hdb)]
  rw [if_pos (show ({ (dataGet s).2 with dataCache := some (JSValue.obj fs') } : Sys).savePendingAt.isSome = true by
        simp [hpp, hp])]
  exact ⟨by simp [hpp, hp], by simpa using hw, by simpa using hdbq,
    by simpa using hsv, by simpa using htm, fs', rfl⟩

theorem storeSet_of_idle (s : Sys) (k : String) (v : JSValue)
    (hdb : s.debounce ≠ 0) (hp : s.savePendingAt = none) (hg : goodData s) :
    (storeSet s k v).savePendingAt = some (s.time + s.debounce) ∧
    (storeSet s k v).writes = s.writes ∧
    (storeSet s k v).debounce = s.debounce ∧ (storeSet s k v).saved = s.saved ∧
    (storeSet s k v).time = s.time ∧
    (∃ fs, (storeSet s k v).dataCache = some (.obj fs)) := by
  obtain ⟨fs0, hd⟩ := dataGet_obj s hg
  obtain ⟨hsv, hpp, hw, htm, hdbq, _, _, _⟩ := dataGet_fields s
  rw [storeSet_eq]
  obtain ⟨fs', he⟩ := setFn_obj fs0 k v
  rw [hd, he]
  unfold saveSys
  rw [if_neg (show ¬ ({ (dataGet s).2 with dataCache := some (JSValue.obj fs') } : Sys).debounce = 0 by
        simpa [hdbq] using hdb)]
  rw [if_neg (show ¬ ({ (dataGet s).2 with dataCache := some (JSValue.obj fs') } : Sys).savePendingAt.isSome = true by
        simp [hpp, hp])]
  refine ⟨by simp [htm, hdbq], by simpa using hw, by simpa using hdbq,
    by simpa using hsv, by simpa using htm, fs', rfl⟩

theorem atTime_goodData (t : Nat) (s : Sys) (h : goodData s) : goodData (atTime t s) := h

theorem fireSave_fires (s : Sys) (t dl : Nat) (hp : s.savePendingAt = some dl)
    (hle : dl ≤ t) : fireSave s t = writeFileSys (atTime t s) := by
  simp [fireSave, hp, hle]

theorem storeGet_eq (s : Sys) (k : String) :
    storeGet s k = (getFn (dataGet s).1 k, (dataGet s).2) := by
  simp only [storeGet]

theorem storeHas_eq (s : Sys) (k : String) :
    storeHas s k = (hasFn (dataGet s).1 k, (dataGet s).2) := by
  simp only [storeHas]

theorem storeHasOwn_eq (s : Sys) (k : String) :
    storeHasOwn s k = (hasOwnFn (dataGet s).1 k, (dataGet s).2) := by
  simp only [storeHasOwn]

theorem storeDelStr_eq (s : Sys) (k : String) :
    storeDelStr s k =
      (if (delFn (dataGet s).1 k).1 then
        saveSys { (dataGet s).2 with dataCache := some (delFn (dataGet s).1 k).2 }
      else { (dataGet s).2 with dataCache := some (delFn (dataGet s).1 k).2 }) := by
  simp only [storeDelStr]

theorem storeDelStr_saved_cache (s : Sys) (fs gs : List (String × JSValue)) (k : String)
    (hsv : s.saved = true) (hc : s.dataCache = some (.obj fs))
    (hdel2 : (delFn (.obj fs) k).2 = .obj gs) :
    (storeDelStr s k).saved = true ∧
    (storeDelStr s k).dataCache = some (.obj gs) := by
  rw [storeDelStr_eq, dataGet_saved s _ hsv hc (obj_truthy fs), hdel2]
  cases hb : (delFn (JSValue.obj fs) k).1
  · rw [if_neg Bool.false_ne_true]
    exact ⟨hsv, rfl⟩
  · rw [if_pos rfl]
    exact saveSys_preserve _ (.obj gs) hsv rfl (obj_truthy gs)

theorem getFn_single (fs : List (String × JSValue)) (k : String) (hk : split k = [k]) :
    getFn (.obj fs) k = jsGetProp (.obj fs) k := by
  unfold getFn
  by_cases h : (jsGetProp (.obj fs) k).looseNull
  · simp [h, walk, hk, obj_truthy]
  · simp [h]

theorem getFn_walk (data : JSValue) (k : String)
    (h : (jsGetProp data k).looseNull = true) :
    getFn data k = walk (split k) data := by
  unfold getFn
  rw [h]
  rfl

theorem getFn_fast (data : JSValue) (k : String)
    (h : (jsGetProp data k).looseNull = false) :
    getFn data k = jsGetProp data k := by
  unfold getFn
  rw [h]
  rfl

theorem walk_cons (k : String) (ks : List String) (d : JSValue) :
    walk (k :: ks) d = walk ks (if d.truthy then jsGetProp d k else d) := by
  simp [walk]

theorem walk_nil (d : JSValue) : walk [] d = d := rfl

theorem hasFn_false_iff (data : JSValue) (k : String) :
    hasFn data k = false ↔ getFn data k = .undef := by
  unfold hasFn
  cases h : getFn data k <;>
    simp [bne, BEq.beq, jsBeq, jsBeqList, jsBeqFields]

theorem storeGet_after_set (s : Sys) (fs : List (String × JSValue)) (k : String)
    (v : JSValue) (hsplit : split k = [k]) (hsv : s.saved = true)
    (hc : s.dataCache = some (.obj fs)) :
    (storeGet (storeSet s k v) k).1 = v := by
  obtain ⟨hS, hC⟩ := storeSet_saved_cache s fs k v hsv hc
  have hsetFn : setFn (.obj fs) k v = .obj (setField fs k v) := by
    unfold setFn
    rw [hsplit]
    rfl
  rw [hsetFn] at hC
  have hdg := dataGet_saved _ _ hS hC (obj_truthy _)
  simp only [storeGet_eq, hdg]
  rw [getFn_single _ k hsplit]
  simp [jsGetProp, lookup_setField_self]

theorem ifObj_obj (cur : JSValue) :
    ∃ g, (if cur.isObject then cur else JSValue.obj []) = .obj g := by
  cases cur <;> simp [JSValue.isObject, JSValue.typeOf]

theorem setSegs_cons (data : JSValue) (k k' : String) (rest : List String) (v : JSValue) :
    setSegs data (k :: k' :: rest) v
      = jsAssign data k
          (setSegs (if (jsGetProp data k).isObject then jsGetProp data k else .obj [])
            (k' :: rest) v) := by
  simp only [setSegs]
  congr 1
  cases h : jsGetProp data k <;>
    simp [JSValue.truthy, JSValue.isObject, JSValue.typeOf] <;>
    split <;>
    simp [JSValue.isObject, JSValue.typeOf]

theorem storeUnion_eq (s : Sys) (k : String) (rest : List JSValue) :
    storeUnion s k rest =
      storeSet (storeGet s k).2 k
        (.arr (uniqueFn (flattenOnce (
          (match (if ((storeGet s k).1).looseNull then JSValue.arr []
                  else (storeGet s k).1) with
           | .arr es => es
           | v => [v]) ++ rest)))) := by
  simp only [storeUnion]

mutual

theorem delE_ok : ∀ (key : JSValue) (s : Sys), exOk (storeDelE s key) = delKeyOk key
  | .str _, _ => rfl
  | .arr ks, s => delList_ok ks s
  | .undef, _ => rfl
  | .null, _ => rfl
  | .bool _, _ => rfl
  | .num _, _ => rfl
  | .obj _, _ => rfl

theorem delList_ok : ∀ (ks : List JSValue) (s : Sys),
    exOk (storeDelList s ks) = delKeysOk ks
  | [], _ => rfl
  | k :: ks, s => by
      have hk := delE_ok k s
      rw [show storeDelList s (k :: ks) = (storeDelE s k).bind fun s' => storeDelList s' ks
          from rfl]
      rw [show delKeysOk (k :: ks) = (delKeyOk k && delKeysOk ks) from rfl]
      cases h : storeDelE s k with
      | error e =>
          rw [h] at hk
          simp [Except.bind, exOk, ← hk]
      | ok s' =>
          rw [h] at hk
          rw [show ((Except.ok s' : Except StoreErr Sys).bind fun s'' => storeDelList s'' ks) =
              storeDelList s' ks from rfl]
          rw [delList_ok ks s', ← hk]
          simp [exOk]

end

theorem runMuts_pending (muts : List (Nat × String × JSValue)) :
    ∀ (s : Sys) (dl : Nat), s.debounce ≠ 0 → s.savePendingAt = some dl →
      (∃ fs, s.dataCache = some (JSValue.obj fs)) →
      (runMuts s muts).savePendingAt = some dl ∧
      (runMuts s muts).writes = s.writes ∧
      (runMuts s muts).debounce = s.debounce ∧
      (runMuts s muts).saved = s.saved ∧
      (∃ fs, (runMuts s muts).dataCache = some (JSValue.obj fs)) := by
  induction muts with
  | nil => intro s dl hdb hp hobj; exact ⟨hp, rfl, rfl, rfl, hobj⟩
  | cons m rest ih =>
      intro s dl hdb hp hobj
      obtain ⟨t, k, v⟩ := m
      have hstep := storeSet_of_pending (atTime t s) k v dl hdb hp (Or.inr hobj)
      simp only [runMuts]
      obtain ⟨h1, h2, h3, h4, _, h6⟩ := hstep
      obtain ⟨hr1, hr2, hr3, hr4, hr5⟩ :=
        ih (storeSet (atTime t s) k v) dl (by rw [h3]; exact hdb) h1 h6
      refine ⟨hr1, by rw [hr2]; exact h2, by rw [hr3]; exact h3,
        by rw [hr4]; exact h4, hr5⟩

/-!
## Claims
-/

/-- C6: for a three-segment dotted path `p` (segments `sa`, `sb`, `sc`,
with `q` the two-segment prefix) over a materialized saved store whose
root has no literal non-null entries named `p` or `q`, `set(p, v)` creates
intermediate mappings at `sa` and `q`: afterwards `get(p)` returns `v`,
`get(q)` is a mapping containing `sc ↦ v`, `get(sa)` is a mapping, and a
missing or non-mapping intermediate value at `sa` is overwritten with a
fresh mapping, so that `get(q)` is then exactly `{sc: v}` — deep-set never
fails. -/
theorem C6_theorem (s : Sys) (fs : List (String × JSValue)) (p q sa sb sc : String)
    (v : JSValue)
    (hsv : s.saved = true) (hc : s.dataCache = some (.obj fs))
    (hp : split p = [sa, sb, sc]) (hq : split q = [sa, sb])
    (hpa : p ≠ sa) (hqa : q ≠ sa)
    (hlp : (jsGetProp (.obj fs) p).looseNull = true)
    (hlq : (jsGetProp (.obj fs) q).looseNull = true) :
    (storeGet (storeSet s p v) p).1 = v ∧
    ((storeGet (storeSet s p v) q).1).isObject = true ∧
    jsGetProp (storeGet (storeSet s p v) q).1 sc = v ∧
    ((storeGet (storeSet s p v) sa).1).isObject = true ∧
    ((jsGetProp (.obj fs) sa).isObject = false →
      (storeGet (storeSet s p v) q).1 = .obj [(sc, v)]) := by
  obtain ⟨hS, hC⟩ := storeSet_saved_cache s fs p v hsv hc
  obtain ⟨g1, hg1⟩ := ifObj_obj (jsGetProp (.obj fs) sa)
  obtain ⟨g2, hg2⟩ := ifObj_obj (jsGetProp (.obj g1) sb)
  have hsetFn : setFn (.obj fs) p v
      = .obj (setField fs sa (.obj (setField g1 sb (.obj (setField g2 sc v))))) := by
    unfold setFn
    rw [hp, setSegs_cons, hg1, setSegs_cons, hg2]
    rfl
  rw [hsetFn] at hC
  have hdg := dataGet_saved _ _ hS hC (obj_truthy _)
  have hsa : jsGetProp
      (JSValue.obj (setField fs sa (.obj (setField g1 sb (.obj (setField g2 sc v)))))) sa
      = .obj (setField g1 sb (.obj (setField g2 sc v))) := by
    simp [jsGetProp, lookup_setField_self]
  have hsb : jsGetProp (JSValue.obj (setField g1 sb (.obj (setField g2 sc v)))) sb
      = .obj (setField g2 sc v) := by
    simp [jsGetProp, lookup_setField_self]
  have hsc : jsGetProp (JSValue.obj (setField g2 sc v)) sc = v := by
    simp [jsGetProp, lookup_setField_self]
  have hfastp : jsGetProp
      (JSValue.obj (setField fs sa (.obj (setField g1 sb (.obj (setField g2 sc v)))))) p
      = jsGetProp (.obj fs) p := by
    simp [jsGetProp, lookup_setField_other fs p sa _ (Ne.symm hpa)]
  have hfastq : jsGetProp
      (JSValue.obj (setField fs sa (.obj (setField g1 sb (.obj (setField g2 sc v)))))) q
      = jsGetProp (.obj fs) q := by
    simp [jsGetProp, lookup_setField_other fs q sa _ (Ne.symm hqa)]
  have hgetp : (storeGet (storeSet s p v) p).1 = v := by
    simp only [storeGet_eq, hdg]
    rw [getFn_walk _ p (by rw [hfastp]; exact hlp), hp]
    simp only [walk_cons, walk_nil, obj_truthy, if_true, hsa, hsb, hsc]
  have hgetq : (storeGet (storeSet s p v) q).1 = .obj (setField g2 sc v) := by
    simp only [storeGet_eq, hdg]
    rw [getFn_walk _ q (by rw [hfastq]; exact hlq), hq]
    simp only [walk_cons, walk_nil, obj_truthy, if_true, hsa, hsb]
  have hgetsa : (storeGet (storeSet s p v) sa).1
      = .obj (setField g1 sb (.obj (setField g2 sc v))) := by
    simp only [storeGet_eq, hdg]
    rw [getFn_fast _ sa (by rw [hsa]; rfl), hsa]
  refine ⟨hgetp, by rw [hgetq]; rfl, by rw [hgetq]; exact hsc, by rw [hgetsa]; rfl, ?_⟩
  intro hnot
  rw [hgetq]
  rw [hnot] at hg1
  simp only [Bool.false_eq_true, if_false] at hg1
  obtain rfl : g1 = [] := by
    cases hg1
    rfl
  rw [show jsGetProp (JSValue.obj ([] : List (String × JSValue))) sb = .undef from rfl] at hg2
  simp only [JSValue.isObject, JSValue.typeOf] at hg2
  rw [if_neg (by simp)] at hg2
  obtain rfl : g2 = [] := by
    cases hg2
    rfl
  rfl

/-- Instantiation of C6 at `set("a.b.c", 7)` on a saved store whose root
has a non-mapping value at `"a"`. -/
theorem C6_witness :
    (storeGet (storeSet ({ saved := true, dataCache := some (.obj [("a", .num 5)]) } : Sys) "a.b.c" (.num 7)) "a.b.c").1 = .num 7 ∧
    (storeGet (storeSet ({ saved := true, dataCache := some (.obj [("a", .num 5)]) } : Sys) "a.b.c" (.num 7)) "a.b").1 = .obj [("c", .num 7)] := by
  obtain ⟨h1, h2, h3, h4, h5⟩ := C6_theorem
    ({ saved := true, dataCache := some (.obj [("a", .num 5)]) } : Sys)
    [("a", .num 5)] "a.b.c" "a.b" "a" "b" "c" (.num 7) rfl rfl rfl rfl
    (by decide) (by decide) rfl rfl
  exact ⟨h1, h5 rfl⟩

/-- C7: `load()` returns the parsed mapping when the backing file exists
and is valid JSON; returns an empty mapping without raising when the file
is absent (`ENOENT`) or its content fails JSON parsing (`SyntaxError`);
and re-raises a permission error (`EACCES`) when the file exists but
cannot be read. -/
theorem C7_theorem :
    (∀ doc : JSValue, loadFn (.ok (.ok doc)) = .ok doc) ∧
    loadFn .enoent = .ok (.obj []) ∧
    (∀ e : Unit, loadFn (.ok (.error e)) = .ok (.obj [])) ∧
    loadFn .eacces = .error .eacces :=
  ⟨fun _ => rfl, rfl, fun _ => rfl, rfl⟩

/-- Instantiation of C7 at concrete read outcomes. -/
theorem C7_witness :
    loadFn (.ok (.ok (.obj [("a", .num 7)]))) = .ok (.obj [("a", .num 7)]) ∧
    loadFn (.ok (.error ())) = .ok (.obj []) :=
  ⟨C7_theorem.1 (.obj [("a", .num 7)]), C7_theorem.2.2.1 ()⟩

/-- C9: for every store state, the path operations applied to a string key
succeed (the embedded walks are total, so missing or partially-missing
paths never raise); each operation raises the invalid-argument assert
exactly when the key argument is not a string where a string is required —
`set` also accepts a plain object (merge form), `del` also accepts
(nested) arrays whose leaves are strings. -/
theorem C9_theorem (s : Sys) (key : JSValue) (v : JSValue) :
    exOk (storeGetE s key) = key.isString ∧
    exOk (storeHasE s key) = key.isString ∧
    exOk (storeHasOwnE s key) = key.isString ∧
    exOk (storeSetE s key v) = (key.isObject || key.isString) ∧
    exOk (storeDelE s key) = delKeyOk key := by
  refine ⟨?_, ?_, ?_, ?_, delE_ok key s⟩ <;> cases key <;> rfl

/-- Instantiation of C9: a string key (with a partially missing path)
succeeds everywhere, a numeric key fails everywhere. -/
theorem C9_witness :
    exOk (storeGetE freshSys (.str "missing.path")) = (JSValue.str "missing.path").isString ∧
    exOk (storeDelE freshSys (.num 3)) = delKeyOk (.num 3) :=
  ⟨(C9_theorem freshSys (.str "missing.path") .undef).1,
    (C9_theorem freshSys (.num 3) .undef).2.2.2.2⟩

/-- C10: the literal-key fast path of `get` applies only when the direct
own property's value is neither `null` nor `undefined`; for every root
with a direct own property whose name contains a dot but whose value is
`null`, `get` on that key falls through to dot-decomposition and path
walking; `hasOwn` on the same key is nevertheless true, and whenever the
walk comes up `undefined` (the typical case, since the dotted name rarely
also exists as a nested path), `has` on that key is false. -/
theorem C10_theorem (fs : List (String × JSValue)) (k : String)
    (hdot : k.data.contains '.' = true)
    (hown : jsHasOwnProperty (.obj fs) k = true)
    (hnull : jsGetProp (.obj fs) k = .null) :
    getFn (.obj fs) k = walk (split k) (.obj fs) ∧
    hasOwnFn (.obj fs) k = true ∧
    (walk (split k) (.obj fs) = .undef → hasFn (.obj fs) k = false) := by
  have hne : k ≠ "" := by
    intro h
    rw [h] at hdot
    exact absurd hdot (by decide)
  have hfall : getFn (.obj fs) k = walk (split k) (.obj fs) :=
    getFn_walk (.obj fs) k (by rw [hnull]; rfl)
  refine ⟨hfall, ?_, ?_⟩
  · unfold hasOwnFn
    rw [if_neg hne, if_pos hown]
  · intro hw
    rw [hasFn_false_iff, hfall, hw]

/-- Instantiation of C10 at the root `{"a.b": null}`. -/
theorem C10_witness :
    getFn (.obj [("a.b", .null)]) "a.b" = walk (split "a.b") (.obj [("a.b", .null)]) ∧
    hasOwnFn (.obj [("a.b", .null)]) "a.b" = true ∧
    hasFn (.obj [("a.b", .null)]) "a.b" = false := by
  obtain ⟨h1, h2, h3⟩ := C10_theorem [("a.b", .null)] "a.b" (by decide) rfl rfl
  exact ⟨h1, h2, h3 rfl⟩

/-- C1 fails on the code: `save()` while a write is pending is a no-op
(src/index.js line 267, `if (this.save.debounce) return`), not a
cancel-and-reschedule.  Concretely, with debounce 5, a mutation at time 0
schedules the write for time 5; a second mutation at time 3 leaves the
deadline at 5, whereas cancelling and rescheduling would move it to
`time + debounce = 8`. -/
theorem C1_counterexample :
    (storeSet (atTime 3 (storeSet freshSys "a" (.num 1))) "b" (.num 2)).savePendingAt
      = some 5 ∧
    (storeSet (atTime 3 (storeSet freshSys "a" (.num 1))) "b" (.num 2)).savePendingAt
      ≠ some ((atTime 3 (storeSet freshSys "a" (.num 1))).time +
              (atTime 3 (storeSet freshSys "a" (.num 1))).debounce) :=
  ⟨rfl, by decide⟩

/-- C1 (amended): debounce coalescing is first-call-wins: `save()` while a
write is already pending keeps the existing timer and deadline untouched;
a burst of mutations starting from an idle store performs no physical
write during the burst and leaves exactly the deadline scheduled by the
first mutation; when that timer fires, the single physical write
serializes the document as of the last mutation. -/
theorem C1_theorem (s : Sys) (t0 tf : Nat) (k0 : String) (v0 : JSValue)
    (muts : List (Nat × String × JSValue))
    (hdb : s.debounce ≠ 0) (hidle : s.savePendingAt = none) (hw : s.writes = [])
    (hg : goodData s) (hfire : t0 + s.debounce ≤ tf) :
    (∀ (s' : Sys) (dl : Nat) (k : String) (v : JSValue), s'.debounce ≠ 0 →
        s'.savePendingAt = some dl → goodData s' →
        (storeSet s' k v).savePendingAt = some dl) ∧
    (runMuts (storeSet (atTime t0 s) k0 v0) muts).writes = [] ∧
    (runMuts (storeSet (atTime t0 s) k0 v0) muts).savePendingAt
      = some (t0 + s.debounce) ∧
    ∃ d, (runMuts (storeSet (atTime t0 s) k0 v0) muts).dataCache = some d ∧
      (fireSave (runMuts (storeSet (atTime t0 s) k0 v0) muts) tf).writes
        = [stringifyDoc d] ∧
      (fireSave (runMuts (storeSet (atTime t0 s) k0 v0) muts) tf).savePendingAt
        = none := by
  obtain ⟨h1, h2, h3, h4, h5, fs1, h6⟩ := storeSet_of_idle (atTime t0 s) k0 v0 hdb hidle hg
  have h1' : (storeSet (atTime t0 s) k0 v0).savePendingAt = some (t0 + s.debounce) := h1
  obtain ⟨hr1, hr2, hr3, hr4, fs2, hr5⟩ :=
    runMuts_pending muts (storeSet (atTime t0 s) k0 v0) (t0 + s.debounce)
      (by rw [h3]; exact hdb) h1' ⟨fs1, h6⟩
  have hWr : (runMuts (storeSet (atTime t0 s) k0 v0) muts).writes = [] := by
    rw [hr2, h2]; exact hw
  refine ⟨fun s' dl k v hd hp hgg => (storeSet_of_pending s' k v dl hd hp hgg).1,
    hWr, hr1, .obj fs2, hr5, ?_, ?_⟩
  · rw [fireSave_fires _ tf (t0 + s.debounce) hr1 hfire,
      writeFile_cache (atTime tf (runMuts (storeSet (atTime t0 s) k0 v0) muts))
        (.obj fs2) hr5 (obj_truthy fs2)]
    show (runMuts (storeSet (atTime t0 s) k0 v0) muts).writes ++ [stringifyDoc (.obj fs2)]
      = [stringifyDoc (.obj fs2)]
    rw [hWr]
    rfl
  · rw [fireSave_fires _ tf (t0 + s.debounce) hr1 hfire,
      writeFile_cache (atTime tf (runMuts (storeSet (atTime t0 s) k0 v0) muts))
        (.obj fs2) hr5 (obj_truthy fs2)]

/-- Instantiation of C1 (amended): a three-mutation burst on a fresh store
(debounce 5) produces exactly one write. -/
theorem C1_witness :
    (fireSave (runMuts (storeSet (atTime 0 freshSys) "a" (.num 1))
        [(1, "b", .num 2), (3, "a", .num 3)]) 5).writes.length = 1 := by
  obtain ⟨-, -, -, d, hd, hwr, -⟩ := C1_theorem freshSys 0 5 "a" (.num 1)
    [(1, "b", .num 2), (3, "a", .num 3)] (by decide) rfl rfl (Or.inl rfl) (by decide)
  rw [hwr]
  rfl

/-- C2 fails on the code: after `set("foo\.bar", "x")` the document holds a
direct own property named `foo.bar`, and `get("foo.bar")` hits the literal
fast path of `get` (the value `"x"` is not loosely null), returning `"x"`,
not the claimed `undefined`. -/
theorem C2_counterexample :
    (storeGet (storeSet freshSys "foo\\.bar" (.str "x")) "foo.bar").1 = .str "x" ∧
    (storeGet (storeSet freshSys "foo\\.bar" (.str "x")) "foo.bar").1 ≠ .undef :=
  ⟨rfl, by decide⟩

/-- C2 (amended): after `set("foo\.bar", "x")`, `get("foo\.bar")` resolves
to `"x"` and `hasOwn("foo\.bar")` is true, but `get("foo.bar")` also
returns `"x"` through the literal fast path (it is not `undefined`).  The
two representations remain distinguishable in the other direction: after
the two-segment path set `set("foo.bar", "y")`, `get("foo\.bar")` is
`undefined` while `get("foo.bar")` is `"y"`. -/
theorem C2_theorem :
    (storeGet (storeSet freshSys "foo\\.bar" (.str "x")) "foo\\.bar").1 = .str "x" ∧
    (storeHasOwn (storeSet freshSys "foo\\.bar" (.str "x")) "foo\\.bar").1 = true ∧
    (storeGet (storeSet freshSys "foo\\.bar" (.str "x")) "foo.bar").1 = .str "x" ∧
    (storeGet (storeSet freshSys "foo.bar" (.str "y")) "foo\\.bar").1 = .undef ∧
    (storeGet (storeSet freshSys "foo.bar" (.str "y")) "foo.bar").1 = .str "y" :=
  ⟨rfl, rfl, rfl, rfl, rfl⟩

/-- C3 fails on the code: defaults are re-merged on every data read until
the first physical write.  A fresh store with defaults `{foo: "bar"}` over
a missing file: after materialization, `del("foo")` leaves an empty cached
document, yet the next `get("foo")` returns `"bar"` again — the explicitly
deleted key is re-seeded from defaults, which the claim rules out. -/
theorem C3_counterexample :
    (storeDelStr (storeGet seedSys "foo").2 "foo").dataCache = some (.obj []) ∧
    (storeGet (storeDelStr (storeGet seedSys "foo").2 "foo") "foo").1 = .str "bar" ∧
    (storeGet (storeDelStr (storeGet seedSys "foo").2 "foo") "foo").1 ≠ .undef :=
  ⟨rfl, rfl, by decide⟩

/-- C3 (amended): until the first physical write marks the store saved,
the data getter re-merges defaults under the cached document on every
read; within each merge an existing top-level key always wins, so defaults
never override a present (persisted or explicitly set) value; after a
write has happened, reads return the cached document with no merging at
all.  (A key deleted after load but before the first write is re-seeded,
as the counterexample shows.)  The spec's seeding scenario holds: over a
missing file with defaults `{foo:"bar"}`, `get("foo")` is `"bar"`; after
`set("foo","baz")` and the debounced write, a fresh store over the same
file without defaults reads `"baz"`. -/
theorem C3_theorem :
    (∀ (s : Sys) (fs : List (String × JSValue)) (k : String) (v : JSValue),
        s.dataCache = some (.obj fs) → lookupField fs k = some v →
        (fs.map Prod.fst).Nodup →
        jsGetProp (dataGet s).1 k = v) ∧
    (∀ s : Sys, (writeFileSys s).saved = true) ∧
    (∀ (s : Sys) (d : JSValue), s.saved = true → s.dataCache = some d →
        d.truthy = true → (dataGet s).1 = d) ∧
    ((storeGet seedSys "foo").1 = .str "bar" ∧
      (storeGet { disk := (fireSave (storeSet seedSys "foo" (.str "baz")) 5).disk } "foo").1
        = .str "baz") := by
  refine ⟨?_, ?_, ?_, rfl, rfl⟩
  · intro s fs k v hc hl hnd
    by_cases hs : s.saved = true
    · rw [dataGet_saved s _ hs hc (obj_truthy fs)]
      simp [jsGetProp, hl]
    · have hs' : s.saved = false := by
        cases hsv : s.saved
        · rfl
        · exact absurd hsv hs
      rw [dataGet_unsaved_cache s _ hs' hc (obj_truthy fs)]
      obtain ⟨fs1, e1⟩ := jsObjectAssign_obj [] s.defaults
      rw [e1]
      exact foldl_assign_get_lookup fs fs1 k v hl hnd
  · intro s
    have hsv := (dataGet_fields { s with savePendingAt := none, saved := true }).1
    show (dataGet { s with savePendingAt := none, saved := true }).2.saved = true
    exact hsv
  · intro s d hs hc ht
    rw [dataGet_saved s d hs hc ht]

/-- Instantiation of C3 (amended): a cached value wins over a conflicting
default, and a saved store's read returns the cache unchanged. -/
theorem C3_witness :
    jsGetProp (dataGet ({ defaults := .obj [("foo", .str "bar")], dataCache := some (.obj [("foo", .str "baz")]) } : Sys)).1 "foo" = .str "baz" ∧
    (dataGet ({ saved := true, dataCache := some (.obj [("x", .num 1)]) } : Sys)).1
      = .obj [("x", .num 1)] :=
  ⟨C3_theorem.1 ({ defaults := .obj [("foo", .str "bar")], dataCache := some (.obj [("foo", .str "baz")]) } : Sys)
      [("foo", .str "baz")] "foo" (.str "baz") rfl rfl (by decide),
    C3_theorem.2.2.1 ({ saved := true, dataCache := some (.obj [("x", .num 1)]) } : Sys)
      (.obj [("x", .num 1)]) rfl rfl rfl⟩

/-- C4 fails on the code: `set("x", undefined)` is not equivalent to
`del("x")` — it stores an own property `"x"` with value `undefined`, so
`hasOwn("x")` is true (the claim says false) and the undefined-valued
placeholder remains in the in-memory document.  (This matches the doc
comment of `hasOwn` and the repository's tests.) -/
theorem C4_counterexample :
    (storeHasOwn (storeSet freshSys "x" .undef) "x").1 = true ∧
    (storeSet freshSys "x" .undef).dataCache = some (.obj [("x", .undef)]) ∧
    (storeHasOwn (storeSet freshSys "x" .undef) "x").1 ≠ false :=
  ⟨rfl, rfl, by decide⟩

/-- C4 (amended): for a dot-free single-segment key on a materialized
saved store whose document keys are duplicate-free, `set(k, undefined)`
stores an own property `k` with value `undefined`: afterwards `has(k)` is
false but `hasOwn(k)` is true; the placeholder survives in the in-memory
document but is dropped by JSON serialization (which omits
undefined-valued entries); and it is not equivalent to `del(k)`, after
which `hasOwn(k)` is false. -/
theorem C4_theorem (s : Sys) (fs : List (String × JSValue)) (k : String)
    (hsplit : split k = [k]) (hne : k ≠ "") (hnodot : k.data.contains '.' = false)
    (hsv : s.saved = true) (hc : s.dataCache = some (.obj fs))
    (hnodup : (fs.map Prod.fst).Nodup) :
    (storeHas (storeSet s k .undef) k).1 = false ∧
    (storeHasOwn (storeSet s k .undef) k).1 = true ∧
    jsHasOwnProperty (stringifyDoc (.obj (setField fs k .undef))) k = false ∧
    (storeHasOwn (storeDelStr s k) k).1 = false := by
  have hsetFn : setFn (.obj fs) k .undef = .obj (setField fs k .undef) := by
    unfold setFn
    rw [hsplit]
    rfl
  obtain ⟨hS, hC⟩ := storeSet_saved_cache s fs k .undef hsv hc
  rw [hsetFn] at hC
  have hdg' := dataGet_saved (storeSet s k .undef) _ hS hC (obj_truthy _)
  refine ⟨?_, ?_, ?_, ?_⟩
  · simp only [storeHas_eq, hdg']
    rw [hasFn_false_iff, getFn_single _ k hsplit]
    simp [jsGetProp, lookup_setField_self]
  · simp only [storeHasOwn_eq, hdg']
    have hown : jsHasOwnProperty (.obj (setField fs k .undef)) k = true := by
      simp [jsHasOwnProperty, lookup_setField_self]
    unfold hasOwnFn
    rw [if_neg hne, if_pos hown]
  · have hlk := lookup_stringifyFields_undef (setField fs k .undef) k
      (nodup_setField fs k .undef hnodup) (lookup_setField_self fs k .undef)
    simp [stringifyDoc, jsHasOwnProperty, hlk]
  · cases hlk : lookupField fs k with
    | some v =>
        have hown0 : jsHasOwnProperty (.obj fs) k = true := by
          simp [jsHasOwnProperty, hlk]
        have hdel : delFn (.obj fs) k = (true, .obj (delField fs k)) := by
          unfold delFn
          rw [if_neg hne, if_pos hown0]
          rfl
        obtain ⟨hS2, hC2⟩ :=
          storeDelStr_saved_cache s fs (delField fs k) k hsv hc (by rw [hdel])
        have hdg2 := dataGet_saved _ _ hS2 hC2 (obj_truthy _)
        simp only [storeHasOwn_eq, hdg2]
        have hnone : jsHasOwnProperty (.obj (delField fs k)) k = false := by
          simp [jsHasOwnProperty, lookup_delField_self fs k hnodup]
        unfold hasOwnFn
        rw [if_neg hne, hnone, if_neg Bool.false_ne_true,
          if_pos (show ¬ k.data.contains '.' = true by
            rw [hnodot]; exact Bool.false_ne_true)]
    | none =>
        have hown0 : jsHasOwnProperty (.obj fs) k = false := by
          simp [jsHasOwnProperty, hlk]
        have hdel : delFn (.obj fs) k = (false, .obj fs) := by
          unfold delFn
          rw [if_neg hne]
          rw [if_neg (show ¬ jsHasOwnProperty (.obj fs) k = true by
            rw [hown0]; exact Bool.false_ne_true)]
          simp [hsplit, hown0]
        obtain ⟨hS2, hC2⟩ := storeDelStr_saved_cache s fs fs k hsv hc (by rw [hdel])
        have hdg2 := dataGet_saved _ _ hS2 hC2 (obj_truthy _)
        simp only [storeHasOwn_eq, hdg2]
        unfold hasOwnFn
        rw [if_neg hne, hown0, if_neg Bool.false_ne_true,
          if_pos (show ¬ k.data.contains '.' = true by
            rw [hnodot]; exact Bool.false_ne_true)]

/-- Instantiation of C4 (amended) on the store `{y: 1}` (saved) with key
`"x"`. -/
theorem C4_witness :
    (storeHas (storeSet ({ saved := true, dataCache := some (.obj [("y", .num 1)]) } : Sys)
        "x" .undef) "x").1 = false ∧
    (storeHasOwn (storeSet ({ saved := true, dataCache := some (.obj [("y", .num 1)]) } : Sys)
        "x" .undef) "x").1 = true ∧
    jsHasOwnProperty (stringifyDoc (.obj (setField [("y", .num 1)] "x" .undef))) "x"
      = false ∧
    (storeHasOwn (storeDelStr ({ saved := true, dataCache := some (.obj [("y", .num 1)]) } : Sys) "x") "x").1 = false :=
  C4_theorem ({ saved := true, dataCache := some (.obj [("y", .num 1)]) } : Sys)
    [("y", .num 1)] "x" rfl (by decide) (by decide) rfl rfl (by decide)

/-- C5 fails on the code: `union` treats only `undefined` and `null` as
"no existing value" (`arr == null`); an existing empty string is coerced
into the one-element sequence `[""]` like any other non-array value, so
after `set("a", "")`, `union("a", "b")` yields `["", "b"]`, not `["b"]`. -/
theorem C5_counterexample :
    (storeGet (storeUnion (storeSet freshSys "a" (.str "")) "a" [.str "b"]) "a").1
      = .arr [.str "", .str "b"] ∧
    (storeGet (storeUnion (storeSet freshSys "a" (.str "")) "a" [.str "b"]) "a").1
      ≠ .arr [.str "b"] :=
  ⟨rfl, by decide⟩

/-- C5 (amended): `union(key, ...values)` treats an existing `undefined`
or `null` as "no existing value" — an existing empty string is instead
coerced into the one-element sequence `[""]` like any other non-sequence
value (this is where the claim fails) — flattens one level of the supplied
values together with the existing elements, removes duplicates by strict
equality keeping first occurrences, and writes the result back through
`set`.  The claim's concrete sequence holds: starting empty,
`union("a","b")`, `union("a","c")`, `union("a","d")`, `union("a","c")`
yields `["b","c","d"]`. -/
theorem C5_theorem (s : Sys) (fs : List (String × JSValue)) (k : String)
    (rest : List JSValue) (hsplit : split k = [k]) (hsv : s.saved = true)
    (hc : s.dataCache = some (.obj fs)) :
    ((jsGetProp (.obj fs) k).looseNull = true →
        (storeGet (storeUnion s k rest) k).1 = .arr (uniqueFn (flattenOnce rest))) ∧
    (∀ es, jsGetProp (.obj fs) k = .arr es →
        (storeGet (storeUnion s k rest) k).1
          = .arr (uniqueFn (flattenOnce (es ++ rest)))) ∧
    ((jsGetProp (.obj fs) k).looseNull = false →
        (jsGetProp (.obj fs) k).isArray = false →
        (storeGet (storeUnion s k rest) k).1
          = .arr (uniqueFn (flattenOnce (jsGetProp (.obj fs) k :: rest)))) ∧
    (storeGet (storeUnion (storeUnion (storeUnion (storeUnion freshSys "a" [.str "b"])
        "a" [.str "c"]) "a" [.str "d"]) "a" [.str "c"]) "a").1
      = .arr [.str "b", .str "c", .str "d"] := by
  have hget : storeGet s k
      = (jsGetProp (.obj fs) k, ({ s with dataCache := some (.obj fs) } : Sys)) := by
    rw [storeGet_eq, dataGet_saved s _ hsv hc (obj_truthy fs)]
    dsimp only
    rw [getFn_single _ k hsplit]
  refine ⟨?_, ?_, ?_, rfl⟩
  · intro h
    rw [storeUnion_eq, hget]
    dsimp only
    rw [h]
    simp only [if_true]
    exact storeGet_after_set _ fs k _ hsplit hsv rfl
  · intro es h
    rw [storeUnion_eq, hget]
    dsimp only
    rw [h]
    simp only [JSValue.looseNull, Bool.false_eq_true, if_false]
    exact storeGet_after_set _ fs k _ hsplit hsv rfl
  · intro h1 h2
    rw [storeUnion_eq, hget]
    dsimp only
    cases hv : jsGetProp (.obj fs) k with
    | arr es =>
        rw [hv] at h2
        exact absurd h2 (by simp [JSValue.isArray])
    | undef =>
        rw [hv] at h1
        exact absurd h1 (by simp [JSValue.looseNull])
    | null =>
        rw [hv] at h1
        exact absurd h1 (by simp [JSValue.looseNull])
    | bool b =>
        simp only [JSValue.looseNull, Bool.false_eq_true, if_false]
        exact storeGet_after_set _ fs k _ hsplit hsv rfl
    | num n =>
        simp only [JSValue.looseNull, Bool.false_eq_true, if_false]
        exact storeGet_after_set _ fs k _ hsplit hsv rfl
    | str t =>
        simp only [JSValue.looseNull, Bool.false_eq_true, if_false]
        exact storeGet_after_set _ fs k _ hsplit hsv rfl
    | obj l =>
        simp only [JSValue.looseNull, Bool.false_eq_true, if_false]
        exact storeGet_after_set _ fs k _ hsplit hsv rfl

/-- Instantiation of C5 (amended) on the saved store `{a: null, b: 7}`:
union over a null key starts empty, union over a scalar key coerces. -/
theorem C5_witness :
    (storeGet (storeUnion ({ saved := true, dataCache := some (.obj [("a", .null), ("b", .num 7)]) } : Sys) "a" [.str "x"]) "a").1
      = .arr (uniqueFn (flattenOnce [.str "x"])) ∧
    (storeGet (storeUnion ({ saved := true, dataCache := some (.obj [("a", .null), ("b", .num 7)]) } : Sys) "b" [.str "x"]) "b").1
      = .arr (uniqueFn (flattenOnce (jsGetProp (.obj [("a", .null), ("b", .num 7)]) "b" :: [.str "x"]))) :=
  ⟨(C5_theorem ({ saved := true, dataCache := some (.obj [("a", .null), ("b", .num 7)]) } : Sys)
      [("a", .null), ("b", .num 7)] "a" [.str "x"] rfl rfl rfl).1 rfl,
    (C5_theorem ({ saved := true, dataCache := some (.obj [("a", .null), ("b", .num 7)]) } : Sys)
      [("a", .null), ("b", .num 7)] "b" [.str "x"] rfl rfl rfl).2.2.1 rfl rfl⟩

/-- C8 fails on the code: `unlink()` does not cancel the pending debounce
timer — it only cancels a previous unlink poll and schedules a poll that
waits for the save to finish.  Concretely, after a mutation schedules a
write for time 5, `unlink()` leaves the deadline in place (not `none`),
and the debounced write still fires and lands on disk. -/
theorem C8_counterexample :
    (unlinkSys (storeSet freshSys "a" (.num 1))).savePendingAt = some 5 ∧
    (unlinkSys (storeSet freshSys "a" (.num 1))).savePendingAt ≠ none ∧
    (fireSave (unlinkSys (storeSet freshSys "a" (.num 1))) 5).writes
      = [.obj [("a", .num 1)]] :=
  ⟨rfl, by decide, rfl⟩

/-- C8 (amended): `unlink()` cancels any previously scheduled unlink poll
(not the save timer: the pending save deadline, the disk and the write log
are untouched) and schedules a poll chain; while a save is pending the
poll reschedules itself and changes nothing, and once no save is pending
it deletes the backing file; removing a non-existent backing file is not
an error (`tryUnlink` swallows `ENOENT`). -/
theorem C8_theorem :
    (∀ s : Sys, (unlinkSys s).savePendingAt = s.savePendingAt ∧
        (unlinkSys s).unlinkActive = true ∧ (unlinkSys s).disk = s.disk ∧
        (unlinkSys s).writes = s.writes) ∧
    (∀ (s : Sys) (t : Nat), s.unlinkActive = true → s.savePendingAt.isSome = true →
        (fireUnlinkPoll s t).disk = s.disk ∧ (fireUnlinkPoll s t).unlinkActive = true ∧
        (fireUnlinkPoll s t).savePendingAt = s.savePendingAt) ∧
    (∀ (s : Sys) (t : Nat), s.unlinkActive = true → s.savePendingAt = none →
        (fireUnlinkPoll s t).disk = none ∧ (fireUnlinkPoll s t).unlinkActive = false) ∧
    tryUnlink none = .ok none := by
  refine ⟨fun s => ⟨rfl, rfl, rfl, rfl⟩, ?_, ?_, rfl⟩
  · intro s t ha hp
    unfold fireUnlinkPoll
    rw [if_pos ha, if_pos hp]
    exact ⟨rfl, ha, rfl⟩
  · intro s t ha hp
    unfold fireUnlinkPoll
    rw [if_pos ha, if_neg (by rw [hp]; exact Bool.false_ne_true)]
    unfold deleteFileSys tryUnlink fsUnlinkSync atTime
    cases hd : s.disk <;> simp [hd]

/-- Instantiation of C8: the poll on an unlinked store with a pending save
leaves the disk alone; once idle it removes the (absent) file without
error. -/
theorem C8_witness :
    (fireUnlinkPoll
        ({ unlinkActive := true, savePendingAt := some 5, disk := some (.obj []) } : Sys)
        3).disk = some (.obj []) ∧
    (fireUnlinkPoll ({ unlinkActive := true, savePendingAt := none } : Sys) 9).disk
      = none := by
  exact ⟨(C8_theorem.2.1
      ({ unlinkActive := true, savePendingAt := some 5, disk := some (.obj []) } : Sys)
      3 rfl rfl).1,
    (C8_theorem.2.2.1 ({ unlinkActive := true, savePendingAt := none } : Sys) 9 rfl rfl).1⟩

end DataStore
